import Mathlib

/-!
Verification of the `fff` bulk URL prober (single file `main.go`).

The embedding models Go strings and byte slices as `List Char` (one `Char`
per byte; all inputs of interest are ASCII, where Go's UTF-8 bytes and the
characters coincide), integers as `Nat`, and stateful steps of the per-task
pipeline as a pure function from the task's inputs and the results of its
external effects (URL parse, network, filesystem) to the task's observable
outputs (stdout lines, stderr lines, files written).
-/

/-- Byte-wise prefix test: `isPrefixB needle hay` is true iff `needle`
is a prefix of `hay`. Helper for the substring search below. -/
def isPrefixB : List Char → List Char → Bool
  | [], _ => true
  | _ :: _, [] => false
  | a :: as, b :: bs => a == b && isPrefixB as bs

/-- `containsSub hay needle` models Go `bytes.Contains(hay, needle)`:
true iff `needle` occurs in `hay` as a contiguous subsequence. -/
def containsSub (hay needle : List Char) : Bool :=
  if isPrefixB needle hay then true
  else
    match hay with
    | [] => false
    | _ :: rest => containsSub rest needle

/-- The needle of the `(?i)<html` regular expression (`isHTML` in main.go). -/
def htmlNeedle : List Char := "<html".toList

/-- Models `isHTML.Match(responseBody)` for the compiled pattern
`(?i)<html` in main.go line 108: a case-insensitive search for the literal
`<html` anywhere in the body.  Lowercasing the body first is equivalent for
this all-ASCII literal pattern. -/
def isHTMLMatch (body : List Char) : Bool :=
  containsSub (body.map Char.toLower) htmlNeedle

/-- Go's ASCII whitespace set used by `bytes.TrimSpace` (`asciiSpace`):
tab, newline, vertical tab, form feed, carriage return, space.  The claims
only involve ASCII bodies, where this is exactly `unicode.IsSpace`. -/
def isSpaceGo (c : Char) : Bool :=
  c == ' ' || c == '\t' || c == '\n' || c == '\r' ||
  c == Char.ofNat 11 || c == Char.ofNat 12

/-- Models `bytes.TrimSpace`: drop whitespace from both ends. -/
def trimSpace (l : List Char) : List Char :=
  ((l.dropWhile isSpaceGo).reverse.dropWhile isSpaceGo).reverse

/-- Translation of `saveStatusArgs.Includes` (main.go lines 311–318):
linear scan for an equal status code. -/
def includes (s : List Nat) (x : Nat) : Bool :=
  match s with
  | [] => false
  | a :: rest => if a == x then true else includes rest x

/-- The save-decision evaluator, translated from main.go lines 171–193:
```
shouldSave := saveResponses || len(saveStatus) > 0 && saveStatus.Includes(resp.StatusCode)
if ignoreHTMLFiles { shouldSave = shouldSave && !isHTML.Match(responseBody) }
if ignoreEmpty    { shouldSave = shouldSave && len(bytes.TrimSpace(responseBody)) != 0 }
if match != "" { if bytes.Contains(responseBody, []byte(match)) { shouldSave = true } }
```
(Go `&&` binds tighter than `||`.) -/
def shouldSave (saveResponses : Bool) (saveStatus : List Nat) (statusCode : Nat)
    (responseBody : List Char) (ignoreHTMLFiles ignoreEmpty : Bool)
    (matchString : List Char) : Bool :=
  let s0 := saveResponses || (decide (saveStatus.length > 0) && includes saveStatus statusCode)
  let s1 := if ignoreHTMLFiles then s0 && !isHTMLMatch responseBody else s0
  let s2 := if ignoreEmpty then s1 && !((trimSpace responseBody).length == 0) else s1
  if !matchString.isEmpty && containsSub responseBody matchString then true else s2

/-- The spec's ordered algorithm for the Save-Decision Evaluator without the
match step (spec §4.2 steps 1–3), written as one conjunction: start from
`saveAll OR (set non-empty AND status ∈ set)`, conjoin the not-HTML condition
when `ignoreHTML`, conjoin the trimmed-non-empty condition when
`ignoreEmpty`. -/
def specDecision (saveAll : Bool) (saveStatusSet : List Nat) (responseStatus : Nat)
    (responseBody : List Char) (ignoreHTML ignoreEmpty : Bool) : Bool :=
  (saveAll || (!saveStatusSet.isEmpty && saveStatusSet.contains responseStatus))
  && (!ignoreHTML || !isHTMLMatch responseBody)
  && (!ignoreEmpty || !(trimSpace responseBody).isEmpty)

theorem includes_eq_contains (s : List Nat) (x : Nat) :
    includes s x = s.contains x := by
  induction s with
  | nil => rfl
  | cons a rest ih =>
      simp only [includes, List.contains_cons]
      by_cases h : a = x
      · subst h; simp
      · have h1 : (a == x) = false := by simpa using h
        have h2 : (x == a) = false := by simpa using fun e => h e.symm
        simp [h1, h2, ih]

theorem length_beq_zero (l : List Char) : (l.length == 0) = l.isEmpty := by
  cases l <;> simp

/-- **C1**: with no match string configured, the evaluator computes exactly
the spec's ordered refinement of the initial decision
`saveAll OR (set non-empty AND status ∈ set)` by the ignore-HTML and
ignore-empty conditions; it is a pure function of these six inputs. -/
theorem c1_decision_algorithm (saveAll : Bool) (saveStatusSet : List Nat)
    (responseStatus : Nat) (responseBody : List Char) (ignoreHTML ignoreEmpty : Bool) :
    shouldSave saveAll saveStatusSet responseStatus responseBody ignoreHTML ignoreEmpty []
      = specDecision saveAll saveStatusSet responseStatus responseBody ignoreHTML ignoreEmpty := by
  simp only [shouldSave, specDecision, List.isEmpty_iff, includes_eq_contains]
  cases saveAll <;> cases ignoreHTML <;> cases ignoreEmpty <;>
    cases hb : isHTMLMatch responseBody <;>
    cases hm : saveStatusSet.contains responseStatus <;>
    cases hs : saveStatusSet <;>
    simp_all [List.length_pos, List.isEmpty_iff, Nat.pos_iff_ne_zero, length_beq_zero]

/-- **C2**: the match override — whenever the match string is non-empty and
occurs in the response body, the evaluator returns `true` no matter what the
other five policy inputs are. -/
theorem c2_match_override (saveAll : Bool) (saveStatusSet : List Nat)
    (responseStatus : Nat) (responseBody : List Char) (ignoreHTML ignoreEmpty : Bool)
    (matchString : List Char) (hne : matchString ≠ [])
    (hc : containsSub responseBody matchString = true) :
    shouldSave saveAll saveStatusSet responseStatus responseBody ignoreHTML ignoreEmpty
      matchString = true := by
  simp only [shouldSave]
  have hne2 : matchString.isEmpty = false := by
    cases matchString
    · exact absurd rfl hne
    · rfl
  simp [hne2, hc]

/-- Witness for C2 at concrete inputs: body `xfoox`, match `foo`, every
save policy off and both ignore policies on. -/
theorem c2_match_override_witness :
    shouldSave false [] 200 ("xfoox".toList) true true ("foo".toList) = true :=
  c2_match_override false [] 200 ("xfoox".toList) true true ("foo".toList)
    (by decide) (by decide)

/-! ### SHA-1 (crypto/sha1), hex rendering, and the ArtifactKey -/

/-- 2^32, the word modulus of SHA-1's 32-bit arithmetic. -/
def w32 : Nat := 4294967296

/-- Left rotation of a 32-bit word (value below `w32`). -/
def rotl (n x : Nat) : Nat := ((x <<< n) ||| (x >>> (32 - n))) % w32

/-- Bitwise complement of a 32-bit word. -/
def not32 (x : Nat) : Nat := x ^^^ (w32 - 1)

/-- Big-endian bytes of a 32-bit word. -/
def wordBytes (x : Nat) : List Nat :=
  [x >>> 24 % 256, x >>> 16 % 256, x >>> 8 % 256, x % 256]

/-- The 8 big-endian bytes of the 64-bit message bit length. -/
def lenBytes (n : Nat) : List Nat :=
  [n >>> 56 % 256, n >>> 48 % 256, n >>> 40 % 256, n >>> 32 % 256,
   n >>> 24 % 256, n >>> 16 % 256, n >>> 8 % 256, n % 256]

/-- SHA-1 padding: append `0x80`, zero bytes up to 56 mod 64, and the
64-bit big-endian bit length. -/
def sha1Pad (msg : List Nat) : List Nat :=
  msg ++ [128] ++ List.replicate ((119 - msg.length % 64) % 64) 0
      ++ lenBytes (msg.length * 8)

/-- Big-endian 32-bit words of a (64-byte) chunk. -/
def toWords : List Nat → List Nat
  | b0 :: b1 :: b2 :: b3 :: rest =>
      (((b0 * 256 + b1) * 256 + b2) * 256 + b3) :: toWords rest
  | _ => []

/-- Extend the 16 schedule words by `n` more words. -/
def extendWords : List Nat → Nat → List Nat
  | ws, 0 => ws
  | ws, n + 1 =>
      let i := ws.length
      let w := rotl 1 ((ws.getD (i - 3) 0 ^^^ ws.getD (i - 8) 0)
                        ^^^ (ws.getD (i - 14) 0 ^^^ ws.getD (i - 16) 0))
      extendWords (ws ++ [w]) n

/-- The SHA-1 working state: five 32-bit words. -/
structure Sha1State where
  a : Nat
  b : Nat
  c : Nat
  d : Nat
  e : Nat
deriving DecidableEq

/-- One of the 80 SHA-1 rounds, for round index `t` and schedule word `w`. -/
def sha1Round (s : Sha1State) (t w : Nat) : Sha1State :=
  let f :=
    if t < 20 then (s.b &&& s.c) ||| (not32 s.b &&& s.d)
    else if t < 40 then (s.b ^^^ s.c) ^^^ s.d
    else if t < 60 then ((s.b &&& s.c) ||| (s.b &&& s.d)) ||| (s.c &&& s.d)
    else (s.b ^^^ s.c) ^^^ s.d
  let k :=
    if t < 20 then 1518500249
    else if t < 40 then 1859775393
    else if t < 60 then 2400959708
    else 3395469782
  let temp := (rotl 5 s.a + f + s.e + k + w) % w32
  ⟨temp, s.a, rotl 30 s.b, s.c, s.d⟩

/-- Process one 64-byte chunk: run the 80 rounds and add into the state. -/
def processChunk (s : Sha1State) (chunk : List Nat) : Sha1State :=
  let ws := extendWords (toWords chunk) 64
  let fin := (ws.foldl (fun st w => (st.1 + 1, sha1Round st.2 st.1 w)) (0, s)).2
  ⟨(s.a + fin.a) % w32, (s.b + fin.b) % w32, (s.c + fin.c) % w32,
   (s.d + fin.d) % w32, (s.e + fin.e) % w32⟩

/-- Split into successive 64-byte chunks; the fuel bounds the recursion and
any fuel at least the number of chunks gives the same result. -/
def chunksOf64 : Nat → List Nat → List (List Nat)
  | 0, _ => []
  | _, [] => []
  | fuel + 1, msg => msg.take 64 :: chunksOf64 fuel (msg.drop 64)

/-- The 20 digest bytes of a final state. -/
def stateBytes (s : Sha1State) : List Nat :=
  wordBytes s.a ++ wordBytes s.b ++ wordBytes s.c ++ wordBytes s.d ++ wordBytes s.e

/-- SHA-1 of a byte sequence (models Go `sha1.Sum`): pad, process each
64-byte chunk from the standard initial state, output the 20 digest bytes. -/
def sha1 (msg : List Nat) : List Nat :=
  let padded := sha1Pad msg
  stateBytes ((chunksOf64 (padded.length + 1) padded).foldl processChunk
    ⟨1732584193, 4023233417, 2562383102, 271733878, 3285377520⟩)

/-- Lower-case hexadecimal digit for a value below 16. -/
def hexDigitChar (n : Nat) : Char :=
  if n < 10 then Char.ofNat (48 + n) else Char.ofNat (87 + n)

/-- Two lower-case hex digits of a byte (Go `%x` formatting of one byte). -/
def hexByte (b : Nat) : List Char := [hexDigitChar (b / 16), hexDigitChar (b % 16)]

/-- Lower-case hex rendering of a byte sequence: models `fmt.Sprintf("%x", hash)`
on a `[20]byte` digest. -/
def hexString (bs : List Nat) : List Char := bs.flatMap hexByte

/-- The bytes of an ASCII string (the claims' inputs are all ASCII, where
Go's UTF-8 bytes coincide with the characters). -/
def strBytes (s : List Char) : List Nat := s.map Char.toNat

/-- Translation of `headerArgs.String()` (main.go lines 295–297):
`strings.Join(h, ", ")`. -/
def headersString : List (List Char) → List Char
  | [] => []
  | [x] => x
  | x :: y :: xs => x ++ ", ".toList ++ headersString (y :: xs)

/-- The ArtifactKey's hash input, main.go line 202:
`method + rawURL + requestBody + headers.String()`. -/
def artifactKeyInput (method rawURL requestBody : List Char)
    (headers : List (List Char)) : List Char :=
  method ++ rawURL ++ requestBody ++ headersString headers

/-- The hex-rendered ArtifactKey: `fmt.Sprintf("%x", sha1.Sum(...))`,
used as the final path component (main.go lines 202–203). -/
def artifactKeyHex (method rawURL requestBody : List Char)
    (headers : List (List Char)) : List Char :=
  hexString (sha1 (strBytes (artifactKeyInput method rawURL requestBody headers)))

/-- The sixteen lower-case hex digit characters. -/
def hexChars : List Char := "0123456789abcdef".toList

theorem stateBytes_length (s : Sha1State) : (stateBytes s).length = 20 := by
  simp [stateBytes, wordBytes]

theorem wordBytes_lt (x : Nat) : ∀ b ∈ wordBytes x, b < 256 := by
  intro b hb
  simp only [wordBytes, List.mem_cons, List.not_mem_nil, or_false] at hb
  rcases hb with h | h | h | h <;> subst h <;> exact Nat.mod_lt _ (by norm_num)

theorem stateBytes_lt (s : Sha1State) : ∀ b ∈ stateBytes s, b < 256 := by
  intro b hb
  simp only [stateBytes, List.mem_append] at hb
  rcases hb with ((((h | h) | h) | h) | h) <;> exact wordBytes_lt _ b h

theorem sha1_length (msg : List Nat) : (sha1 msg).length = 20 := by
  simp [sha1, stateBytes_length]

theorem sha1_lt (msg : List Nat) : ∀ b ∈ sha1 msg, b < 256 := by
  intro b hb
  exact stateBytes_lt _ b hb

theorem hexDigitChar_mem (n : Nat) (h : n < 16) : hexDigitChar n ∈ hexChars := by
  revert h
  revert n
  decide

theorem hexByte_mem (b : Nat) (h : b < 256) : ∀ c ∈ hexByte b, c ∈ hexChars := by
  intro c hc
  simp only [hexByte, List.mem_cons, List.not_mem_nil, or_false] at hc
  rcases hc with h1 | h1 <;> subst h1
  · exact hexDigitChar_mem _ (Nat.div_lt_of_lt_mul (by omega))
  · exact hexDigitChar_mem _ (Nat.mod_lt _ (by norm_num))

theorem hexString_length (bs : List Nat) : (hexString bs).length = 2 * bs.length := by
  induction bs with
  | nil => rfl
  | cons b rest ih => simp [hexString, hexByte] at ih ⊢; omega

/-- **C3**: the ArtifactKey is the SHA-1 digest of
`method ++ rawURL ++ requestBody ++ joined-header-string`; identical inputs
give an identical digest, and its hex rendering — the final path component —
is exactly 40 lower-case hex characters. -/
theorem c3_artifact_key (method rawURL requestBody : List Char)
    (headers : List (List Char)) :
    artifactKeyHex method rawURL requestBody headers
        = hexString (sha1 (strBytes (method ++ rawURL ++ requestBody ++ headersString headers)))
    ∧ (artifactKeyHex method rawURL requestBody headers).length = 40
    ∧ (∀ c ∈ artifactKeyHex method rawURL requestBody headers, c ∈ hexChars)
    ∧ (∀ m2 r2 b2 h2, method = m2 → rawURL = r2 → requestBody = b2 → headers = h2 →
        artifactKeyHex method rawURL requestBody headers = artifactKeyHex m2 r2 b2 h2) := by
  refine ⟨rfl, ?_, ?_, ?_⟩
  · rw [artifactKeyHex, hexString_length, sha1_length]
  · intro c hc
    simp only [artifactKeyHex, hexString, List.mem_flatMap] at hc
    obtain ⟨b, hb, hcb⟩ := hc
    exact hexByte_mem b (sha1_lt _ b hb) c hcb
  · intro m2 r2 b2 h2 e1 e2 e3 e4
    subst e1; subst e2; subst e3; subst e4
    rfl

/-- Witness for C3 at concrete inputs: method `GET`, URL `http://x/`,
empty body, no headers — the determinism conjunct applied with all four
equality hypotheses discharged, and the 40-character length evaluated. -/
theorem c3_artifact_key_witness :
    artifactKeyHex ("GET".toList) ("http://x/".toList) [] []
        = artifactKeyHex ("GET".toList) ("http://x/".toList) [] []
    ∧ (artifactKeyHex ("GET".toList) ("http://x/".toList) [] []).length = 40 :=
  ⟨(c3_artifact_key ("GET".toList) ("http://x/".toList) [] []).2.2.2
      ("GET".toList) ("http://x/".toList) [] [] rfl rfl rfl rfl,
   (c3_artifact_key ("GET".toList) ("http://x/".toList) [] []).2.1⟩

/-! ### Artifact serialization (main.go lines 211–239) -/

/-- One `> header` request-header line of the artifact. -/
def reqHeaderLine (h : List Char) : List Char :=
  "> ".toList ++ h ++ "\n".toList

/-- The `< Name: value` response-header lines, one per value occurrence,
keys in the order the serialization loop enumerates the header multimap and
values of one key in the (server-supplied) slice order — main.go lines 232–236. -/
def respHeaderLineList (respHeaders : List (List Char × List (List Char))) :
    List (List Char) :=
  respHeaders.flatMap (fun kv =>
    kv.2.map (fun v => "< ".toList ++ kv.1 ++ ": ".toList ++ v ++ "\n".toList))

/-- Translation of the `strings.Builder` sequence of main.go lines 211–239:
`"%s %s\n\n"` method rawURL, one `"> %s\n"` per configured header, `'\n'`,
the request body plus `"\n\n"` when non-empty, `"< %s %s\n"` proto status,
the nested response-header loop, `"\r\n"`, then the raw response body. -/
def serializeArtifact (method rawURL requestBody : List Char)
    (headers : List (List Char)) (proto status : List Char)
    (respHeaders : List (List Char × List (List Char))) (respBody : List Char) :
    List Char :=
  (method ++ " ".toList ++ rawURL ++ "\n\n".toList)
  ++ headers.flatMap reqHeaderLine
  ++ "\n".toList
  ++ (if requestBody.isEmpty then [] else requestBody ++ "\n\n".toList)
  ++ ("< ".toList ++ proto ++ " ".toList ++ status ++ "\n".toList)
  ++ (respHeaderLineList respHeaders).flatten
  ++ "\r\n".toList
  ++ respBody

/-- The artifact text layout as §6 of the spec states it: first line
`METHOD rawURL` then a blank line; one `> header` line per configured header
followed by a blank line that appears even with zero headers; the request
body plus a trailing blank line only if a body was configured; the
`< proto status` line; one `< Name: value` line per response header
occurrence; one literal CR-LF pair; the raw response body bytes verbatim. -/
def artifactLayoutSpec (method rawURL requestBody : List Char)
    (headers : List (List Char)) (proto status : List Char)
    (respHeaders : List (List Char × List (List Char))) (respBody : List Char) :
    List Char :=
  (method ++ " ".toList ++ rawURL ++ "\n".toList) ++ "\n".toList
  ++ (headers.map reqHeaderLine).flatten ++ "\n".toList
  ++ (if requestBody = [] then [] else requestBody ++ "\n".toList ++ "\n".toList)
  ++ ("< ".toList ++ proto ++ " ".toList ++ status ++ "\n".toList)
  ++ (respHeaderLineList respHeaders).flatten
  ++ ('\r' :: '\n' :: [])
  ++ respBody

/-- **C4**: the serialized artifact text is exactly the layout of spec §6,
for every combination of method, URL, request body, configured headers,
protocol, status line, response-header enumeration and response body. -/
theorem c4_artifact_layout (method rawURL requestBody : List Char)
    (headers : List (List Char)) (proto status : List Char)
    (respHeaders : List (List Char × List (List Char))) (respBody : List Char) :
    serializeArtifact method rawURL requestBody headers proto status respHeaders respBody
      = artifactLayoutSpec method rawURL requestBody headers proto status respHeaders
          respBody := by
  simp only [serializeArtifact, artifactLayoutSpec, List.isEmpty_iff,
    List.flatMap_def, List.append_assoc]
  cases requestBody <;> simp [List.append_assoc]

/-- Association-list lookup of one key's value list in the response-header
multimap (the first binding wins; with distinct keys it is the binding). -/
def lookupVals (k : List Char) : List (List Char × List (List Char)) → List (List Char)
  | [] => []
  | kv :: rest => if kv.1 == k then kv.2 else lookupVals k rest

/-- Decidable test that two ordered header enumerations carry the identical
multimap: distinct keys on both sides, and each side's every binding looked
up on the other side yields the same value list. -/
def headerMapEquiv (h1 h2 : List (List Char × List (List Char))) : Bool :=
  decide ((h1.map Prod.fst).Nodup) && decide ((h2.map Prod.fst).Nodup)
  && h1.all (fun kv => lookupVals kv.1 h2 == kv.2)
  && h2.all (fun kv => lookupVals kv.1 h1 == kv.2)

/-- **C5, counterexample**: two enumerations of the identical two-key
response-header multimap — as Go's randomized map iteration may produce on
two runs — yield different artifact bytes for identical request inputs and
identical response, so content is not byte-identical as claimed. -/
theorem c5_counterexample :
    headerMapEquiv
        [("A".toList, ["1".toList]), ("B".toList, ["2".toList])]
        [("B".toList, ["2".toList]), ("A".toList, ["1".toList])] = true
    ∧ serializeArtifact ("GET".toList) ("http://x/".toList) [] []
        ("HTTP/1.1".toList) ("200 OK".toList)
        [("A".toList, ["1".toList]), ("B".toList, ["2".toList])] ("hi".toList)
      ≠ serializeArtifact ("GET".toList) ("http://x/".toList) [] []
        ("HTTP/1.1".toList) ("200 OK".toList)
        [("B".toList, ["2".toList]), ("A".toList, ["1".toList])] ("hi".toList) := by
  constructor
  · decide
  · decide

/-- **C5, amended**: serialization is a deterministic function of its inputs
including the header enumeration order, so runs whose map iteration happens
to enumerate the headers identically produce byte-identical content; when
the two runs' enumerations are merely permutations of one another, the
response-header lines of the two artifacts are permutations of each other
(each value occurrence still yielding one line). -/
theorem c5_amended (method rawURL requestBody : List Char)
    (headers : List (List Char)) (proto status : List Char)
    (h1 h2 : List (List Char × List (List Char))) (respBody : List Char)
    (hperm : h1.Perm h2) :
    (respHeaderLineList h1).Perm (respHeaderLineList h2)
    ∧ (h1 = h2 →
        serializeArtifact method rawURL requestBody headers proto status h1 respBody
          = serializeArtifact method rawURL requestBody headers proto status h2 respBody) := by
  constructor
  · simp only [respHeaderLineList, List.flatMap_def]
    exact (hperm.map _).flatten
  · intro h
    rw [h]

/-- Witness for C5's amended statement at a concrete header enumeration,
with the permutation and equality hypotheses discharged. -/
theorem c5_amended_witness :
    (respHeaderLineList [("A".toList, ["1".toList]), ("B".toList, ["2".toList])]).Perm
        (respHeaderLineList [("A".toList, ["1".toList]), ("B".toList, ["2".toList])])
    ∧ serializeArtifact ("GET".toList) ("http://x/".toList) [] []
        ("HTTP/1.1".toList) ("200 OK".toList)
        [("A".toList, ["1".toList]), ("B".toList, ["2".toList])] ("hi".toList)
      = serializeArtifact ("GET".toList) ("http://x/".toList) [] []
        ("HTTP/1.1".toList) ("200 OK".toList)
        [("A".toList, ["1".toList]), ("B".toList, ["2".toList])] ("hi".toList) :=
  ⟨(c5_amended ("GET".toList) ("http://x/".toList) [] [] ("HTTP/1.1".toList)
      ("200 OK".toList) _ _ ("hi".toList) (List.Perm.refl _)).1,
   (c5_amended ("GET".toList) ("http://x/".toList) [] [] ("HTTP/1.1".toList)
      ("200 OK".toList) _ _ ("hi".toList) (List.Perm.refl _)).2 rfl⟩

/-! ### Path normalizer (main.go lines 320–323) -/

/-- The character class `[a-zA-Z0-9/._-]` of `normalisePath`'s pattern. -/
def allowedChar (c : Char) : Bool :=
  ('a' ≤ c && c ≤ 'z') || ('A' ≤ c && c ≤ 'Z') || ('0' ≤ c && c ≤ '9') ||
  c == '/' || c == '.' || c == '_' || c == '-'

/-- State machine form of the regex replacement in normalisePath, which
replaces every match of the pattern of disallowed-character runs
(the negation of the class above, one or more times) with one dash: emit allowed characters unchanged and one `-` at the
start of each maximal run of disallowed characters (`inRun` tracks being
inside such a run). -/
def normAux : List Char → Bool → List Char
  | [], _ => []
  | c :: rest, inRun =>
    if allowedChar c then c :: normAux rest false
    else if inRun then normAux rest true
    else '-' :: normAux rest true

/-- Translation of `normalisePath` (main.go lines 320–323) applied to the
URL's path component. -/
def normalisePath (p : List Char) : List Char := normAux p false

/-- The spec's contract for the Path Normalizer, as a relation: the output
is the input with every maximal run of characters outside the allowed class
replaced by a single `-` (maximality: each run is followed by an allowed
character or the end of the string). -/
inductive NormRel : List Char → List Char → Prop
  | nil : NormRel [] []
  | good (c : Char) (s t : List Char) : allowedChar c = true → NormRel s t →
      NormRel (c :: s) (c :: t)
  | bad (run s t : List Char) : run ≠ [] → (∀ c ∈ run, allowedChar c = false) →
      (∀ c, s.head? = some c → allowedChar c = true) → NormRel s t →
      NormRel (run ++ s) ('-' :: t)

theorem normAux_badRun (run : List Char) (s : List Char)
    (h : ∀ c ∈ run, allowedChar c = false) :
    normAux (run ++ s) true = normAux s true := by
  induction run with
  | nil => rfl
  | cons c rest ih =>
      have hc : allowedChar c = false := h c (by simp)
      simp only [List.cons_append, normAux, hc, if_false, Bool.false_eq_true,
        if_true]
      exact ih (fun d hd => h d (by simp [hd]))

theorem normAux_run_exit (s : List Char)
    (h : ∀ c, s.head? = some c → allowedChar c = true) :
    normAux s true = normAux s false := by
  cases s with
  | nil => rfl
  | cons c rest =>
      have hc : allowedChar c = true := h c rfl
      simp [normAux, hc]

theorem head_dropWhile_allowed (l : List Char) (c : Char)
    (h : (l.dropWhile (fun d => !allowedChar d)).head? = some c) :
    allowedChar c = true := by
  induction l with
  | nil => simp [List.dropWhile] at h
  | cons a rest ih =>
      by_cases ha : allowedChar a
      · simp [List.dropWhile, ha] at h
        subst h
        exact ha
      · simp only [List.dropWhile, ha, Bool.not_false, if_pos] at h
        exact ih h

theorem mem_takeWhile_bad (l : List Char) (c : Char)
    (h : c ∈ l.takeWhile (fun d => !allowedChar d)) :
    allowedChar c = false := by
  induction l with
  | nil => simp [List.takeWhile] at h
  | cons a rest ih =>
      by_cases ha : allowedChar a
      · simp [List.takeWhile, ha] at h
      · simp only [List.takeWhile, ha, Bool.not_false, if_pos,
          List.mem_cons] at h
        rcases h with h | h
        · subst h
          simpa using ha
        · exact ih h

theorem length_dropWhile_le_self (p : Char → Bool) (l : List Char) :
    (l.dropWhile p).length ≤ l.length := by
  induction l with
  | nil => simp [List.dropWhile]
  | cons a rest ih =>
      by_cases ha : p a
      · simp only [List.dropWhile, ha, if_pos]
        exact Nat.le_succ_of_le ih
      · simp [List.dropWhile, ha]

theorem normRel_normAux : ∀ n p, List.length p ≤ n → NormRel p (normAux p false) := by
  intro n
  induction n with
  | zero =>
      intro p hp
      have : p = [] := List.length_eq_zero.mp (Nat.le_zero.mp hp)
      subst this
      exact NormRel.nil
  | succ n ih =>
      intro p hp
      cases p with
      | nil => exact NormRel.nil
      | cons c rest =>
          by_cases hc : allowedChar c
          · have h1 : normAux (c :: rest) false = c :: normAux rest false := by
              simp [normAux, hc]
            rw [h1]
            exact NormRel.good c rest _ hc (ih rest (Nat.le_of_succ_le_succ hp))
          · have hcf : allowedChar c = false := by simpa using hc
            have hsplit : (c :: rest).takeWhile (fun d => !allowedChar d)
                ++ (c :: rest).dropWhile (fun d => !allowedChar d) = c :: rest :=
              List.takeWhile_append_dropWhile _ _
            have htake : (c :: rest).takeWhile (fun d => !allowedChar d)
                = c :: rest.takeWhile (fun d => !allowedChar d) := by
              simp [List.takeWhile, hcf]
            have hdrop : (c :: rest).dropWhile (fun d => !allowedChar d)
                = rest.dropWhile (fun d => !allowedChar d) := by
              simp [List.dropWhile, hcf]
            have hrest : rest.takeWhile (fun d => !allowedChar d)
                ++ rest.dropWhile (fun d => !allowedChar d) = rest :=
              List.takeWhile_append_dropWhile _ _
            have h1 : normAux (c :: rest) false = '-' :: normAux rest true := by
              simp [normAux, hcf]
            have h2 : normAux rest true
                = normAux (rest.dropWhile (fun d => !allowedChar d)) true := by
              conv =>
                lhs
                rw [hrest.symm]
              exact normAux_badRun _ _ (fun d hd => mem_takeWhile_bad rest d hd)
            have h3 : normAux (rest.dropWhile (fun d => !allowedChar d)) true
                = normAux (rest.dropWhile (fun d => !allowedChar d)) false :=
              normAux_run_exit _ (fun d hd => head_dropWhile_allowed rest d hd)
            have hlen : (rest.dropWhile (fun d => !allowedChar d)).length ≤ n := by
              exact Nat.le_trans (length_dropWhile_le_self _ rest)
                (Nat.le_of_succ_le_succ hp)
            have hrel := ih (rest.dropWhile (fun d => !allowedChar d)) hlen
            have hres := NormRel.bad ((c :: rest).takeWhile (fun d => !allowedChar d))
              ((c :: rest).dropWhile (fun d => !allowedChar d)) _
              (by rw [htake]; exact List.cons_ne_nil _ _)
              (fun d hd => mem_takeWhile_bad (c :: rest) d hd)
              (fun d hd => head_dropWhile_allowed (c :: rest) d hd)
              (by rw [hdrop]; exact hrel)
            rw [hsplit] at hres
            rw [h1, h2, h3]
            exact hres

theorem normAux_allowed_id (p : List Char) (h : ∀ c ∈ p, allowedChar c = true) :
    normAux p false = p := by
  induction p with
  | nil => rfl
  | cons c rest ih =>
      have hc : allowedChar c = true := h c (by simp)
      simp only [normAux, hc, if_pos]
      rw [ih (fun d hd => h d (by simp [hd]))]

/-- **C6**: the Path Normalizer replaces every maximal run of characters
outside `[a-zA-Z0-9/._-]` with a single `-` (the relation `NormRel` states
exactly that), maps the example `/a b!!c` to `/a-b-c`, and leaves any string
of allowed characters unchanged; it is a pure function of the path. -/
theorem c6_normalise_path :
    (∀ p, NormRel p (normalisePath p))
    ∧ normalisePath ("/a b!!c".toList) = "/a-b-c".toList
    ∧ ∀ p, (∀ c ∈ p, allowedChar c = true) → normalisePath p = p := by
  refine ⟨?_, by decide, ?_⟩
  · intro p
    exact normRel_normAux p.length p (Nat.le_refl _)
  · intro p h
    exact normAux_allowed_id p h

/-- Witness for C6's allowed-characters conjunct at the concrete path
`/ok_path-1.txt`, the hypothesis discharged by evaluation. -/
theorem c6_normalise_path_witness :
    normalisePath ("/ok_path-1.txt".toList) = "/ok_path-1.txt".toList :=
  c6_normalise_path.2.2 ("/ok_path-1.txt".toList) (by decide)

/-! ### Go path.Clean / path.Join, URL fields, and the per-task pipeline -/

/-- Split a string at every `/` (components of a slash-separated path);
the empty string yields one empty component. -/
def splitSlash (s : List Char) : List (List Char) :=
  s.foldr (fun c acc =>
    match acc with
    | cur :: rest => if c == '/' then [] :: cur :: rest else (c :: cur) :: rest
    | [] => [[c]]) [[]]

/-- The `..` path component. -/
def dotdot : List Char := "..".toList

/-- Component processing of Go `path.Clean`: drop empty and `.` components,
let `..` pop the last real component (at the root it vanishes, in a relative
path with nothing to pop it is kept), collect the rest.  The stack holds the
kept components in reverse. -/
def cleanComps (rooted : Bool) : List (List Char) → List (List Char) → List (List Char)
  | [], stack => stack.reverse
  | c :: rest, stack =>
    if c.isEmpty || c = ['.'] then cleanComps rooted rest stack
    else if c = dotdot then
      match stack with
      | top :: stackRest =>
          if top = dotdot then cleanComps rooted rest (c :: top :: stackRest)
          else cleanComps rooted rest stackRest
      | [] => if rooted then cleanComps rooted rest [] else cleanComps rooted rest [c]
    else cleanComps rooted rest (c :: stack)

/-- Models Go `path.Clean`: shortest lexically-equivalent path — duplicate
slashes collapse, `.` and resolvable `..` components vanish, the empty
result becomes `.`. -/
def pathClean (p : List Char) : List Char :=
  if p.isEmpty then ['.']
  else
    let rooted := p.head? == some '/'
    let comps := cleanComps rooted (splitSlash p) []
    let out := (if rooted then ['/'] else []) ++ List.intercalate ['/'] comps
    if out.isEmpty then ['.'] else out

/-- Models Go `path.Join` as called at main.go line 203: skip leading empty
elements, join the rest with `/`, and Clean the result. -/
def pathJoin (elems : List (List Char)) : List Char :=
  let es := elems.dropWhile List.isEmpty
  if es.isEmpty then [] else pathClean (List.intercalate ['/'] es)

/-- Everything after the first `://` separator of an absolute URL. -/
def afterScheme : List Char → List Char
  | [] => []
  | c :: rest => if isPrefixB ("://".toList) (c :: rest) then rest.drop 2 else afterScheme rest

/-- Hostname and path fields of a parsed absolute URL of the shape
`scheme://host/path` without userinfo, port, query or fragment (the only
shape the claims exercise), as `req.URL.Hostname()` and `req.URL.Path`
return them: everything between `://` and the next `/` is the host, and the
remainder starting at that `/` is the path (empty when there is no `/`). -/
def urlHostPath (rawURL : List Char) : List Char × List Char :=
  let rest := afterScheme rawURL
  (rest.takeWhile (fun c => !(c == '/')), rest.dropWhile (fun c => !(c == '/')))

/-- The configuration one dispatched task reads (main.go flag variables). -/
structure Config where
  requestBody : List Char
  method : List Char
  headers : List (List Char)
  matchString : List Char
  ignoreHTMLFiles : Bool
  ignoreEmpty : Bool
  saveResponses : Bool
  saveStatus : List Nat
  outputDir : List Char

/-- A buffered HTTP response as the task sees it: status code, protocol,
status line, the header multimap in the order Go's map iteration enumerates
it (values of one key in server-supplied slice order), and the body. -/
structure Response where
  statusCode : Nat
  proto : List Char
  status : List Char
  headerIter : List (List Char × List (List Char))
  body : List Char

/-- The observable outputs of one task: stdout lines, stderr lines, and
(path, content) pairs written to the filesystem. -/
structure TaskResult where
  stdoutLines : List (List Char)
  stderrLines : List (List Char)
  files : List (List Char × List Char)
deriving DecidableEq

/-- The method after the per-task upgrade of main.go lines 124–132: with a
non-empty configured body a method equal to `GET` becomes `POST`; any other
method is used unchanged. -/
def effectiveMethod (method requestBody : List Char) : List Char :=
  if requestBody.isEmpty then method
  else if method = "GET".toList then "POST".toList else method

/-- Decimal rendering of a status code, as `%d` formats it. -/
def natStr (n : Nat) : List Char := (Nat.repr n).toList

/-- Go `strings.SplitN(h, ":", 2)` as used in main.go lines 146–153: the
name before the first colon and the value after it, or `none` when the
header has no colon — the case lines 149–151 skip with `continue`, so the
header is never applied to the outgoing request. -/
def splitHeader (h : List Char) : Option (List Char × List Char) :=
  if h.contains ':' then
    some (h.takeWhile (fun c => !(c == ':')), (h.dropWhile (fun c => !(c == ':'))).drop 1)
  else none

/-- The name-value pairs passed to `req.Header.Set`, in loop order. -/
def requestHeaderPairs (headers : List (List Char)) : List (List Char × List Char) :=
  headers.filterMap splitHeader

/-- The per-task pipeline of main.go lines 120–250 as a function of the
task's configuration, its input line, and the outcomes of its external
effects: `parsed` carries `url.ParseRequestURI`'s verdict together with
`req.URL`'s hostname and path, `reqOk` whether `http.NewRequest` succeeded,
`net` the response when `client.Do` succeeded, `readOk` whether reading the
body succeeded, `mkdirOk` and `writeOk` whether `os.MkdirAll` and
`ioutil.WriteFile` succeeded.  Stderr lines model the diagnostic prefixes
of the corresponding `fmt.Fprintf` calls. -/
def runTask (cfg : Config) (rawURL : List Char)
    (parsed : Option (List Char × List Char)) (reqOk : Bool)
    (net : Option Response) (readOk mkdirOk writeOk : Bool) : TaskResult :=
  let method := effectiveMethod cfg.method cfg.requestBody
  match parsed with
  | none => ⟨[], [], []⟩
  | some (host, urlPath) =>
    if !reqOk then ⟨[], ["failed to create request".toList], []⟩
    else
      match net with
      | none => ⟨[], ["request failed".toList], []⟩
      | some resp =>
        if !readOk then ⟨[], ["failed to read body".toList], []⟩
        else
          let save := shouldSave cfg.saveResponses cfg.saveStatus resp.statusCode
                        resp.body cfg.ignoreHTMLFiles cfg.ignoreEmpty cfg.matchString
          if !save then ⟨[rawURL ++ " ".toList ++ natStr resp.statusCode], [], []⟩
          else
            let p := pathJoin [cfg.outputDir, host, normalisePath urlPath,
                       artifactKeyHex method rawURL cfg.requestBody cfg.headers]
            if !mkdirOk then ⟨[], ["failed to create dir".toList], []⟩
            else
              let content := serializeArtifact method rawURL cfg.requestBody cfg.headers
                               resp.proto resp.status resp.headerIter resp.body
              if !writeOk then ⟨[], ["failed to write file contents".toList], []⟩
              else ⟨[p ++ ": ".toList ++ rawURL ++ " ".toList ++ natStr resp.statusCode],
                    [], [(p, content)]⟩

/-! ### Claims about the pipeline (C7–C10, C9) -/

/-- **C9**: a task whose input line fails URL validity parsing terminates
silently: no stdout line, no stderr line, no file, whatever the
configuration and the other effect outcomes would have been. -/
theorem c9_parse_failure_silent (cfg : Config) (rawURL : List Char) (reqOk : Bool)
    (net : Option Response) (readOk mkdirOk writeOk : Bool) :
    runTask cfg rawURL none reqOk net readOk mkdirOk writeOk = ⟨[], [], []⟩ := rfl

/-- Scenario 2's configuration: all defaults plus `--save`. -/
def cfgSaveAll : Config :=
  ⟨[], "GET".toList, [], [], false, false, true, [], "out".toList⟩

/-- A 404 response with empty body and no headers. -/
def resp404 : Response :=
  ⟨404, "HTTP/1.1".toList, "404 Not Found".toList, [], []⟩

set_option maxRecDepth 100000 in
/-- **C7, counterexample**: for input `http://example.com/` with `--save`,
the artifact is not written at `out/example.com//<digest>` — the claimed
double slash does not survive `path.Join`, which cleans the joined path. -/
theorem c7_counterexample :
    (runTask cfgSaveAll ("http://example.com/".toList)
        (some (urlHostPath ("http://example.com/".toList))) true (some resp404)
        true true true).files.map Prod.fst
      ≠ ["out/example.com//".toList
          ++ artifactKeyHex ("GET".toList) ("http://example.com/".toList) [] []] := by
  decide

set_option maxRecDepth 100000 in
/-- **C7, amended**: for input `http://example.com/` with `--save`, the
normalized root path is `/` (not the empty string) and `path.Join` cleans
the duplicate slash away, so the one file written is at
`out/example.com/<digest>` with the serialized GET artifact as content. -/
theorem c7_artifact_path :
    (runTask cfgSaveAll ("http://example.com/".toList)
        (some (urlHostPath ("http://example.com/".toList))) true (some resp404)
        true true true).files
      = [("out/example.com/".toList
            ++ artifactKeyHex ("GET".toList) ("http://example.com/".toList) [] [],
          serializeArtifact ("GET".toList) ("http://example.com/".toList) [] []
            ("HTTP/1.1".toList) ("404 Not Found".toList) [] [])] := by
  decide

/-- **C8**: the effective-method upgrade — with a non-empty configured body
and method `GET`, the method becomes `POST`, and a persisting task's file
uses `POST` both in the ArtifactKey hash input and in the artifact's first
line; any method other than `GET` is used unchanged even with a body. -/
theorem c8_method_upgrade (cfg : Config) (rawURL host urlPath : List Char)
    (resp : Response) (hbody : cfg.requestBody ≠ [])
    (hmethod : cfg.method = "GET".toList)
    (hsave : shouldSave cfg.saveResponses cfg.saveStatus resp.statusCode resp.body
        cfg.ignoreHTMLFiles cfg.ignoreEmpty cfg.matchString = true) :
    effectiveMethod cfg.method cfg.requestBody = "POST".toList
    ∧ (runTask cfg rawURL (some (host, urlPath)) true (some resp) true true true).files
        = [(pathJoin [cfg.outputDir, host, normalisePath urlPath,
              artifactKeyHex ("POST".toList) rawURL cfg.requestBody cfg.headers],
            serializeArtifact ("POST".toList) rawURL cfg.requestBody cfg.headers
              resp.proto resp.status resp.headerIter resp.body)]
    ∧ (∀ m b : List Char, m ≠ "GET".toList → effectiveMethod m b = m) := by
  have hne : cfg.requestBody.isEmpty = false := by
    cases hcb : cfg.requestBody
    · exact absurd hcb hbody
    · rfl
  have heff : effectiveMethod cfg.method cfg.requestBody = "POST".toList := by
    simp [effectiveMethod, hne, hmethod]
  refine ⟨heff, ?_, ?_⟩
  · simp [runTask, heff, hsave]
  · intro m b hm
    by_cases hbe : b.isEmpty
    · simp [effectiveMethod, hbe]
    · simp [effectiveMethod, hbe]
      intro he
      exact absurd he hm

/-- A configuration with body `x`, method left at the default `GET`, and
`--save` set. -/
def cfgPostBody : Config :=
  ⟨"x".toList, "GET".toList, [], [], false, false, true, [], "out".toList⟩

set_option maxRecDepth 100000 in
/-- Witness for C8 at the configuration with body `x` and default method:
the hypotheses discharged by evaluation, the persisted file keyed and
serialized with `POST`. -/
theorem c8_method_upgrade_witness :
    effectiveMethod cfgPostBody.method cfgPostBody.requestBody = "POST".toList
    ∧ (runTask cfgPostBody ("http://example.com/".toList)
        (some ("example.com".toList, "/".toList)) true (some resp404) true true true).files
      = [(pathJoin ["out".toList, "example.com".toList, normalisePath ("/".toList),
            artifactKeyHex ("POST".toList) ("http://example.com/".toList) ("x".toList) []],
          serializeArtifact ("POST".toList) ("http://example.com/".toList) ("x".toList) []
            ("HTTP/1.1".toList) ("404 Not Found".toList) [] [])] :=
  ⟨(c8_method_upgrade cfgPostBody ("http://example.com/".toList) ("example.com".toList)
      ("/".toList) resp404 (by decide) rfl (by decide)).1,
   (c8_method_upgrade cfgPostBody ("http://example.com/".toList) ("example.com".toList)
      ("/".toList) resp404 (by decide) rfl (by decide)).2.1⟩

theorem isPrefixB_self_append (mid post : List Char) :
    isPrefixB mid (mid ++ post) = true := by
  induction mid with
  | nil => rfl
  | cons a t ih => simp [isPrefixB, ih]

theorem containsSub_parts (pre mid post : List Char) :
    containsSub (pre ++ (mid ++ post)) mid = true := by
  induction pre with
  | nil =>
      rw [List.nil_append, containsSub.eq_def, isPrefixB_self_append mid post]
      simp
  | cons a t ih =>
      by_cases hp : isPrefixB mid (a :: (t ++ (mid ++ post))) = true
      · simp [containsSub, hp]
      · simp [containsSub, hp, ih]

theorem headersString_parts (hs : List (List Char)) (h : List Char) :
    h ∈ hs → ∃ pre post, headersString hs = pre ++ (h ++ post) := by
  induction hs with
  | nil =>
      intro hmem
      simp at hmem
  | cons x rest ih =>
      intro hmem
      rcases List.mem_cons.mp hmem with he | hm
      · subst he
        cases rest with
        | nil => exact ⟨[], [], by simp [headersString]⟩
        | cons y ys =>
            exact ⟨[], ", ".toList ++ headersString (y :: ys), by simp [headersString]⟩
      · obtain ⟨pre, post, hp⟩ := ih hm
        cases rest with
        | nil => simp at hm
        | cons y ys =>
            exact ⟨x ++ ", ".toList ++ pre, post, by
              simp [headersString, hp, List.append_assoc]⟩

theorem flatMap_reqHeaderLine_parts (hs : List (List Char)) (h : List Char)
    (hmem : h ∈ hs) :
    ∃ pre post, hs.flatMap reqHeaderLine = pre ++ (reqHeaderLine h ++ post) := by
  obtain ⟨s, t, hst⟩ := List.append_of_mem hmem
  subst hst
  exact ⟨s.flatMap reqHeaderLine, t.flatMap reqHeaderLine, by
    simp [List.flatMap_append, List.flatMap_cons]⟩

theorem requestHeaderPairs_filter (hs : List (List Char)) :
    requestHeaderPairs hs = requestHeaderPairs (hs.filter (fun g => g.contains ':')) := by
  induction hs with
  | nil => rfl
  | cons g rest ih =>
      by_cases hg : g.contains ':' = true
      · have hsg : splitHeader g = some (g.takeWhile (fun c => !(c == ':')),
            (g.dropWhile (fun c => !(c == ':'))).drop 1) := by
          simp only [splitHeader]
          rw [hg]
          simp
        simp only [requestHeaderPairs, List.filter_cons, hg, if_pos,
          List.filterMap_cons, hsg] at ih ⊢
        rw [ih]
      · have hgf : g.contains ':' = false := by
          cases hc : g.contains ':'
          · rfl
          · exact absurd hc hg
        have hsg : splitHeader g = none := by
          simp only [splitHeader]
          rw [hgf]
          simp
        simp only [requestHeaderPairs, List.filter_cons, hgf, Bool.false_eq_true,
          if_false, List.filterMap_cons, hsg] at ih ⊢
        rw [ih]

/-- **C10**: a configured header string with no colon is skipped when
building the outgoing request (its `SplitN` yields no name-value pair, and
the request's header pairs are those of the colon-containing headers
alone), yet the very same string still occurs in the ArtifactKey hash input
through the joined header string, and its `> ` line still occurs in the
serialized artifact. -/
theorem c10_colonless_header (headers : List (List Char)) (h : List Char)
    (method rawURL requestBody proto status : List Char)
    (respHeaders : List (List Char × List (List Char))) (respBody : List Char)
    (hmem : h ∈ headers) (hnc : h.contains ':' = false) :
    splitHeader h = none
    ∧ requestHeaderPairs headers
        = requestHeaderPairs (headers.filter (fun g => g.contains ':'))
    ∧ containsSub (artifactKeyInput method rawURL requestBody headers) h = true
    ∧ containsSub
        (serializeArtifact method rawURL requestBody headers proto status
          respHeaders respBody)
        (reqHeaderLine h) = true := by
  refine ⟨by simp only [splitHeader]; rw [hnc]; simp, requestHeaderPairs_filter headers, ?_, ?_⟩
  · obtain ⟨pre, post, hp⟩ := headersString_parts headers h hmem
    have hdec : artifactKeyInput method rawURL requestBody headers
        = (method ++ rawURL ++ requestBody ++ pre) ++ (h ++ post) := by
      simp [artifactKeyInput, hp, List.append_assoc]
    rw [hdec]
    exact containsSub_parts _ _ _
  · obtain ⟨pre, post, hp⟩ := flatMap_reqHeaderLine_parts headers h hmem
    have hdec : serializeArtifact method rawURL requestBody headers proto status
          respHeaders respBody
        = ((method ++ " ".toList ++ rawURL ++ "\n\n".toList) ++ pre)
          ++ (reqHeaderLine h ++ (post ++ ("\n".toList
             ++ (if requestBody.isEmpty then [] else requestBody ++ "\n\n".toList)
             ++ (("< ".toList ++ proto ++ " ".toList ++ status ++ "\n".toList)
             ++ ((respHeaderLineList respHeaders).flatten
             ++ ("\r\n".toList ++ respBody)))))) := by
      simp [serializeArtifact, hp, List.append_assoc]
    rw [hdec]
    exact containsSub_parts _ _ _

/-- Witness for C10 at the concrete colon-less header `XNoSeparator`, the
membership and no-colon hypotheses discharged by evaluation. -/
theorem c10_colonless_header_witness :
    splitHeader ("XNoSeparator".toList) = none
    ∧ requestHeaderPairs ["XNoSeparator".toList]
        = requestHeaderPairs (List.filter (fun g => g.contains ':')
            ["XNoSeparator".toList])
    ∧ containsSub (artifactKeyInput ("GET".toList) ("http://x/".toList) []
        ["XNoSeparator".toList]) ("XNoSeparator".toList) = true
    ∧ containsSub (serializeArtifact ("GET".toList) ("http://x/".toList) []
        ["XNoSeparator".toList] ("HTTP/1.1".toList) ("200 OK".toList) [] [])
        (reqHeaderLine ("XNoSeparator".toList)) = true :=
  c10_colonless_header ["XNoSeparator".toList] ("XNoSeparator".toList)
    ("GET".toList) ("http://x/".toList) [] ("HTTP/1.1".toList) ("200 OK".toList) [] []
    (by decide) (by decide)
